import Mathlib

/-!
Verification development for the DiscordRoleRotator repository
(source files: src/bot2.0.py, src/bot3.0.py, src/bot3.1.py).

The repository contains three versions of the same Discord "role cycler"
bot.  The engine parts relevant to the specification are shallowly
embedded below:

* a calendar/instant model (`DT`, `toDays`, `fromDays`, `toKey`) standing
  for Python `datetime` values in the configured timezone, with
  `toKey` the linearisation used for comparisons and for the returned
  `int(cand.timestamp())` instants (seconds, local epoch);
* `Bot30.next_run_from_now` — the schedule calculator of bot3.0.py
  (lines 282-328) and bot2.0.py (lines 301-354), which are identical;
  Python exceptions (ValueError from `datetime.replace`) are modelled by
  `Except.error ()`;
* `Bot31.compute_next_run` — the schedule calculator of bot3.1.py
  (lines 305-339), which is total and returns a datetime;
* `Bot30.pick_next_batch` — the cycle/queue selection of bot3.0.py
  (lines 380-440) and bot2.0.py (lines 418-495); the two random shuffles
  (`shuffle_cycle_queue`) are injected as explicit permutation arguments
  `perm1` (rebuild of an exhausted queue) and `perm2` (top-up cycle);
* `Bot30.run_rotation` — remove-previous-holders + pick + grant of
  bot3.0.py (`remove_role_b_from_current_holders`, lines 346-368, and the
  role-assignment tail of `pick_next_batch`, lines 422-440); the fallible
  per-member `add_roles` collaborator call is injected as `grantOk`;
* `Bot31.perform_run_selection` — the selection logic inside
  bot3.1.py `perform_run` (lines 435-469) plus its under-supply check
  (line 505).

Stats records (`seconds_total`, `hold_started_ts`) are modelled as a
total function `Nat → Int × Option Int`; a member absent from the stats
dict corresponds to the default record `(0, none)`, which is exactly what
`ensure_user_stat` inserts.
-/

namespace RoleCycler

/-- Model of a Python (timezone-aware) `datetime` at second granularity:
calendar fields in the schedule's configured timezone.  `microsecond` is
omitted (every value compared by the modelled code has it zeroed or it is
irrelevant to the claims). -/
structure DT where
  year : Int
  month : Int
  day : Int
  hour : Int
  minute : Int
  second : Int
deriving DecidableEq

/-- Leap-year test, as used by Python's `calendar`/`datetime`. -/
def isLeap (y : Int) : Bool :=
  (y % 4 == 0 && y % 100 != 0) || y % 400 == 0

/-- Number of days of month `m` of year `y` (the validity bound enforced
by `datetime.replace(day=...)`). -/
def daysInMonth (y m : Int) : Int :=
  if m = 2 then (if isLeap y then 29 else 28)
  else if m = 4 ∨ m = 6 ∨ m = 9 ∨ m = 11 then 30
  else 31

/-- Days since 1970-01-01 of the civil date `(y, m, d)` (Howard Hinnant's
`days_from_civil` algorithm, which is what proleptic-Gregorian datetime
arithmetic computes). -/
def toDays (y m d : Int) : Int :=
  let y' := if m ≤ 2 then y - 1 else y
  let era := Int.fdiv y' 400
  let yoe := y' - era * 400
  let mp := if 2 < m then m - 3 else m + 9
  let doy := Int.fdiv (153 * mp + 2) 5 + d - 1
  let doe := yoe * 365 + Int.fdiv yoe 4 - Int.fdiv yoe 100 + doy
  era * 146097 + doe - 719468

/-- Inverse of `toDays` (Hinnant's `civil_from_days`). -/
def fromDays (z0 : Int) : Int × Int × Int :=
  let z := z0 + 719468
  let era := Int.fdiv z 146097
  let doe := z - era * 146097
  let yoe := Int.fdiv (doe - Int.fdiv doe 1460 + Int.fdiv doe 36524 - Int.fdiv doe 146096) 365
  let y := yoe + era * 400
  let doy := doe - (365 * yoe + Int.fdiv yoe 4 - Int.fdiv yoe 100)
  let mp := Int.fdiv (5 * doy + 2) 153
  let d := doy - Int.fdiv (153 * mp + 2) 5 + 1
  let m := if mp < 10 then mp + 3 else mp - 9
  (if m ≤ 2 then y + 1 else y, m, d)

/-- Python's `datetime.weekday()` (Monday = 0): 1970-01-01 was a
Thursday. -/
def weekdayPy (y m d : Int) : Int :=
  (toDays y m d + 3) % 7

/-- Linearisation of a datetime to seconds since the (local) epoch; this
is the order-embedding under which the source's `datetime` comparisons
and the returned `int(cand.timestamp())` instants are modelled. -/
def toKey (dt : DT) : Int :=
  toDays dt.year dt.month dt.day * 86400 + dt.hour * 3600 + dt.minute * 60 + dt.second

/-- Model of `now.replace(hour=hh, minute=mm, second=0, microsecond=0)`. -/
def replaceTime (now : DT) (hh mm : Int) : DT :=
  { now with hour := hh, minute := mm, second := 0 }

/-- Validity of the `hour`/`minute` arguments of `datetime.replace`
(out-of-range values raise ValueError in Python). -/
def timeOk (hh mm : Int) : Prop :=
  0 ≤ hh ∧ hh ≤ 23 ∧ 0 ≤ mm ∧ mm ≤ 59

instance (hh mm : Int) : Decidable (timeOk hh mm) := by
  unfold timeOk; infer_instance

/-- Model of `dt + timedelta(days = k)` for `k ≥ 0`: convert the date to
an epoch-day count, add, and convert back; the time of day is kept. -/
def addDaysDT (dt : DT) (k : Int) : DT :=
  let ymd := fromDays (toDays dt.year dt.month dt.day + k)
  { dt with year := ymd.1, month := ymd.2.1, day := ymd.2.2 }

namespace Bot30

/-- Schedule configuration of bot3.0.py / bot2.0.py (`config.schedule`):
`type` is a free-form string, `hh`/`mm` are the two components returned
by `parse_hhmm` for the stored `"HH:MM"` string. -/
structure Sched where
  enabled : Bool
  type : String
  hh : Int
  mm : Int
  weekday : Int
  dom : Int
  nDays : Int
deriving DecidableEq

/-- Model of the monthly day-clamping loop of bot3.0.py lines 307-311 /
316-320: `for d in range(28, 32): try: cand = cand.replace(day=min(dom, d))
except ValueError: continue` — a failing `replace` leaves `cand`
unchanged. -/
def clampLoop (dom : Int) (cand : DT) : DT :=
  [28, 29, 30, 31].foldl
    (fun c d =>
      if 1 ≤ min dom d ∧ min dom d ≤ daysInMonth c.year c.month then
        { c with day := min dom d }
      else c)
    cand

/-- Model of the `every_n_days` loop of bot3.0.py lines 324-326:
`while cand <= now: cand += timedelta(days=n)` on linearised instants.
The source computes `n = max(1, ...)` before the loop; the `max 1 n`
inside the step is therefore the same quantity and makes the recursion
terminate for every argument. -/
def addUntilAfter (n : Int) (nowKey cand : Int) : Int :=
  if cand ≤ nowKey then addUntilAfter n nowKey (cand + 86400 * max 1 n)
  else cand
termination_by (nowKey + 1 - cand).toNat
decreasing_by
  have h1 : (1 : Int) ≤ max 1 n := le_max_left 1 n
  omega

/-- Model of `next_run_from_now` (bot3.0.py lines 282-328 = bot2.0.py
lines 301-354).  Returns `Except.ok none` where the source returns
`None` (schedule disabled, or unrecognised `type`), `Except.ok (some k)`
for a computed instant `k = int(cand.timestamp())`, and `Except.error ()`
where the source raises an uncaught ValueError from `datetime.replace`
(invalid time-of-day, or — the interesting case — the un-guarded
`cand.replace(year=y, month=m2)` in the monthly branch when the current
clamped day does not exist in the following month). -/
def next_run_from_now (s : Sched) (now : DT) : Except Unit (Option Int) :=
  if ¬ s.enabled then Except.ok none
  else
    let hh := s.hh
    let mm := s.mm
    if s.type = "daily" then
      if ¬ timeOk hh mm then Except.error ()
      else
        let cand := toKey (replaceTime now hh mm)
        Except.ok (some (if cand ≤ toKey now then cand + 86400 else cand))
    else if s.type = "weekly" then
      if ¬ timeOk hh mm then Except.error ()
      else
        let cand := toKey (replaceTime now hh mm)
        let wd := weekdayPy now.year now.month now.day
        let daysAhead0 := (s.weekday - wd) % 7
        let daysAhead := if daysAhead0 = 0 ∧ cand ≤ toKey now then 7 else daysAhead0
        Except.ok (some (cand + daysAhead * 86400))
    else if s.type = "monthly" then
      let d0 := min s.dom 28
      if ¬ (timeOk hh mm ∧ 1 ≤ d0 ∧ d0 ≤ daysInMonth now.year now.month) then Except.error ()
      else
        let cand : DT := ⟨now.year, now.month, d0, hh, mm, 0⟩
        let cand := clampLoop s.dom cand
        if toKey cand ≤ toKey now then
          let ym2 : Int × Int :=
            if now.month = 12 then (now.year + 1, 1) else (now.year, now.month + 1)
          if ¬ (1 ≤ cand.day ∧ cand.day ≤ daysInMonth ym2.1 ym2.2) then Except.error ()
          else
            let cand := clampLoop s.dom ⟨ym2.1, ym2.2, cand.day, cand.hour, cand.minute, cand.second⟩
            Except.ok (some (toKey cand))
        else Except.ok (some (toKey cand))
    else if s.type = "every_n_days" then
      if ¬ timeOk hh mm then Except.error ()
      else
        let n := max 1 s.nDays
        let cand := toKey (replaceTime now hh mm)
        Except.ok (some (addUntilAfter n (toKey now) cand))
    else Except.ok none

end Bot30

namespace Bot31

/-- `ScheduleConfig` of bot3.1.py (lines 47-53). -/
structure Sched where
  mode : String
  preset : String
  everyDays : Int
  hour : Int
  minute : Int
deriving DecidableEq

/-- Model of `compute_next_run` (bot3.1.py lines 305-339).  Note that
this version has no `enabled` flag, and an unrecognised `preset` falls
into the commented "fallback daily" branch. -/
def compute_next_run (cfg : Sched) (now : DT) : DT :=
  let hour := cfg.hour
  let minute := cfg.minute
  if cfg.mode = "preset" then
    if cfg.preset = "daily" then
      let target := replaceTime now hour minute
      if toKey target ≤ toKey now then addDaysDT target 1 else target
    else if cfg.preset = "weekly" then
      let target := replaceTime now hour minute
      if toKey target ≤ toKey now then addDaysDT target 7 else target
    else if cfg.preset = "monthly" then
      let target := replaceTime now hour minute
      if toKey target ≤ toKey now then addDaysDT target 30 else target
    else
      let target := replaceTime now hour minute
      if toKey target ≤ toKey now then addDaysDT target 1 else target
  else
    let target := replaceTime now hour minute
    if toKey target ≤ toKey now then addDaysDT target (max 1 cfg.everyDays) else target

end Bot31

/-- Per-member stats record: `(seconds_total, hold_started_ts)`
(bot3.0.py `ensure_user_stat`, line 340).  A member id absent from the
stats dict is modelled by the default record `(0, none)` — exactly the
record `ensure_user_stat` creates on demand. -/
def Stats : Type := Nat → Int × Option Int

/-- The empty stats store (every record is the created-on-demand default). -/
def statsEmpty : Stats := fun _ => (0, none)

/-- Model of the interval-finalisation step of bot3.0.py lines 355-360
(identically bot2.0.py lines 389-395): `if stats and
stats.get("hold_started_ts"): dur = now - int(...); seconds_total += max(0,
dur); hold_started_ts = None`.  Note the Python truthiness test: a stored
timestamp of `0` is falsy and is treated like `None` (no finalisation). -/
def close_hold (stats : Stats) (uid : Nat) (nowTs : Int) : Stats :=
  fun u =>
    if u = uid then
      match stats uid with
      | (sec, some t) => if t = 0 then (sec, some t) else (sec + max 0 (nowTs - t), none)
      | (sec, none) => (sec, none)
    else stats u

/-- Model of the interval-opening step of bot3.0.py line 433
(bot2.0.py line 488): `stats[str(m.id)]["hold_started_ts"] = now_ts`
after `ensure_user_stat` — the accumulated seconds are kept and the open
timestamp is overwritten unconditionally. -/
def open_hold (stats : Stats) (uid : Nat) (nowTs : Int) : Stats :=
  fun u => if u = uid then ((stats uid).1, some nowTs) else stats u

/-- Model of the per-member total of the `/stats` command, bot3.0.py lines
786-789: `total = seconds_total; if start: total += max(0, now - start)`
(again with Python truthiness on the stored timestamp). -/
def total_hold (stats : Stats) (uid : Nat) (nowTs : Int) : Int :=
  let r := stats uid
  r.1 + (match r.2 with
         | some t => if t = 0 then 0 else max 0 (nowTs - t)
         | none => 0)

namespace Bot30

/-- The batch-size coercion of bot3.0.py lines 383-384 (= bot2.0.py lines
424-426): `y = int(cfg.get("picks_y", ...)); if y < 1: y = 1`. -/
def effective_y (picksY : Int) : Int :=
  if picksY < 1 then 1 else picksY

/-- Result of one selection step: the selected ids and the persisted
cycle state (`current_cycle.queue` / `current_cycle.index`). -/
structure PickOut where
  selected : List Nat
  queue : List Nat
  index : Nat
deriving DecidableEq

/-- Model of the selection part of `pick_next_batch`, bot3.0.py lines
380-420 (= bot2.0.py lines 418-471).  `aIdsNow` is the fresh eligible
pool (`a_ids_now`); the two calls to `shuffle_cycle_queue(members_a)` are
injected as `perm1` (rebuild when the repaired queue is exhausted, line
396) and `perm2` (fresh cycle drawn in the top-up case, line 412); both
are meant to be permutations of `aIdsNow`.  `repair_cycle_with_current_a`
(lines 375-378) is inlined as the filtered drop with index reset to 0. -/
def pick_next_batch (picksY : Int) (aIdsNow perm1 perm2 queue0 : List Nat)
    (index0 : Nat) : PickOut :=
  let y : Nat := (effective_y picksY).toNat
  let leftovers := (queue0.drop index0).filter (fun uid => decide (uid ∈ aIdsNow))
  let qi : List Nat × Nat := if leftovers = [] then (perm1, 0) else (leftovers, 0)
  let queue := qi.1
  let index := qi.2
  let remaining := queue.length - index
  if y ≤ remaining then
    ⟨(queue.drop index).take y, queue, index + y⟩
  else
    let zTake := queue.drop index
    let needed := y - zTake.length
    ⟨zTake ++ perm2.take needed, perm2.drop needed, 0⟩

/-- `selected_members` of bot3.0.py lines 422-426: the selected ids that
are (still) in the eligible pool, in selection order; this is also the
list stored into `current_holders` at line 438. -/
def selected_members (aIdsNow sel : List Nat) : List Nat :=
  sel.filter (fun uid => decide (uid ∈ aIdsNow))

/-- Persisted per-guild engine state of bot3.0.py's `data` blob:
`current_holders`, `stats`, `current_cycle.queue`, `current_cycle.index`. -/
structure RunState where
  currentHolders : List Nat
  stats : Stats
  queue : List Nat
  index : Nat

/-- Model of `remove_role_b_from_current_holders` (bot3.0.py lines
346-368): finalise the stats interval of every recorded holder (whether
or not the member or the role removal succeeds — the source closes the
stats before attempting the Discord call) and clear `current_holders`. -/
def remove_role_b_from_current_holders (nowTs : Int) (st : RunState) : RunState :=
  { st with
    stats := st.currentHolders.foldl (fun s uid => close_hold s uid nowTs) st.stats
    currentHolders := [] }

/-- Model of the assignment tail of `pick_next_batch` (bot3.0.py lines
428-439): for each selected member try `add_roles` (injected outcome
`grantOk`); only on success is `hold_started_ts` set; afterwards
`current_holders` is set to ALL selected members, regardless of the
per-member grant outcome. -/
def assign_selected (selMembers : List Nat) (grantOk : Nat → Bool) (nowTs : Int)
    (st : RunState) : RunState :=
  { st with
    stats := selMembers.foldl
      (fun s uid => if grantOk uid then open_hold s uid nowTs else s) st.stats
    currentHolders := selMembers }

/-- Model of one full rotation (`run_rotation`, bot3.0.py lines 442-451,
and the scheduler's remove+pick sequence): remove role B from current
holders (closing intervals), then pick and assign the next batch.
`nowR`/`nowP` are the two `datetime.now()` timestamps taken by the remove
and pick phases. -/
def run_rotation (picksY : Int) (aIdsNow perm1 perm2 : List Nat)
    (grantOk : Nat → Bool) (nowR nowP : Int) (st : RunState) : RunState :=
  let st1 := remove_role_b_from_current_holders nowR st
  let po := pick_next_batch picksY aIdsNow perm1 perm2 st1.queue st1.index
  let selM := selected_members aIdsNow po.selected
  assign_selected selM grantOk nowP { st1 with queue := po.queue, index := po.index }

/-- Iterated rotations for the fairness claim: run `pick_next_batch`
once per element of `ps` (each element supplying the two injected
shuffles for that run), collecting the per-run `current_holders` list
(= `selected_members`, see bot3.0.py line 438 — the recorded holders do
not depend on the grant outcomes). -/
def run_batches (picksY : Int) (aIdsNow : List Nat)
    (ps : List (List Nat × List Nat)) (queue : List Nat) (index : Nat) :
    List (List Nat) × List Nat × Nat :=
  match ps with
  | [] => ([], queue, index)
  | p :: rest =>
      let r := pick_next_batch picksY aIdsNow p.1 p.2 queue index
      let t := run_batches picksY aIdsNow rest r.queue r.index
      (selected_members aIdsNow r.selected :: t.1, t.2.1, t.2.2)

end Bot30

namespace Bot31

/-- The batch-size coercion of bot3.1.py line 436:
`y = max(1, int(cfg.picks_number))`. -/
def effective_y (picksNumber : Int) : Int :=
  max 1 picksNumber

/-- Result of the selection logic of bot3.1.py `perform_run`:
the picked ids, the persisted `current_cycle_pool` remainder, and the
under-supply advisory of line 505 (`len(members_with_a) < y`). -/
structure RunSelect where
  picks : List Nat
  pool : List Nat
  insufficient : Bool
deriving DecidableEq

/-- Model of the selection logic of `perform_run`, bot3.1.py lines
435-469 plus the under-supply check of line 505.  `membersWithA` is the
current eligible pool; the two `random.shuffle` draws are injected as
`freshPerm` (line 443, used when the carried pool is empty) and
`newCyclePerm` (line 456, the new cycle drawn in the top-up case); both
are meant to be permutations of `membersWithA`. -/
def perform_run_selection (picksNumber : Int) (membersWithA currentCyclePool
    freshPerm newCyclePerm : List Nat) : RunSelect :=
  let y : Nat := (effective_y picksNumber).toNat
  let pool0 := currentCyclePool.filter (fun uid => decide (uid ∈ membersWithA))
  let pool1 := if pool0 = [] then freshPerm else pool0
  let tk := min y pool1.length
  let picks1 := pool1.take tk
  let pool2 := pool1.drop tk
  let need := y - picks1.length
  if 0 < need then
    let newCycle := newCyclePerm.filter (fun uid => decide (uid ∉ picks1))
    if need ≤ newCycle.length then
      ⟨picks1 ++ newCycle.take need, newCycle.drop need, decide (membersWithA.length < y)⟩
    else
      ⟨picks1 ++ newCycle, [], decide (membersWithA.length < y)⟩
  else
    ⟨picks1, pool2, decide (membersWithA.length < y)⟩

end Bot31

end RoleCycler

section StatsLemmas

open RoleCycler

theorem close_hold_other {s : Stats} {u uid : Nat} {n : Int} (h : u ≠ uid) :
    close_hold s uid n u = s u := by
  simp [close_hold, h]

theorem close_hold_of_none {s : Stats} {u uid : Nat} {n : Int} (h : (s u).2 = none) :
    close_hold s uid n u = s u := by
  by_cases hu : u = uid
  · subst hu
    rcases hq : s u with ⟨sec, hold⟩
    rw [hq] at h
    simp at h
    subst h
    simp [close_hold, hq]
  · exact close_hold_other hu

theorem close_fold_not_mem (hs : List Nat) (s : Stats) (n : Int) (u : Nat) (hu : u ∉ hs) :
    hs.foldl (fun s uid => close_hold s uid n) s u = s u := by
  induction hs generalizing s with
  | nil => rfl
  | cons a t ih =>
      have h1 : u ≠ a := fun h => hu (h ▸ List.mem_cons_self a t)
      have h2 : u ∉ t := fun h => hu (List.mem_cons_of_mem a h)
      simp only [List.foldl_cons]
      rw [ih _ h2, close_hold_other h1]

theorem close_fold_of_none (hs : List Nat) (s : Stats) (n : Int) (u : Nat)
    (h : (s u).2 = none) :
    hs.foldl (fun s uid => close_hold s uid n) s u = s u := by
  induction hs generalizing s with
  | nil => rfl
  | cons a t ih =>
      simp only [List.foldl_cons]
      have hstep : close_hold s a n u = s u := close_hold_of_none h
      rw [ih _ (by rw [hstep]; exact h), hstep]

theorem close_fold_closes (hs : List Nat) (s : Stats) (n : Int) (u : Nat)
    (hu : u ∈ hs) (hz : (s u).2 ≠ some 0) :
    (hs.foldl (fun s uid => close_hold s uid n) s u).2 = none := by
  induction hs generalizing s with
  | nil => cases hu
  | cons a t ih =>
      simp only [List.foldl_cons]
      by_cases hua : u = a
      · subst hua
        rcases hq : s u with ⟨sec, hold⟩
        rw [hq] at hz
        cases hold with
        | none =>
            have hstep : close_hold s u n u = s u := close_hold_of_none (by rw [hq])
            rw [close_fold_of_none t _ n u (by rw [hstep, hq])]
            rw [hstep, hq]
        | some t0 =>
            have ht0 : t0 ≠ 0 := by
              intro h; exact hz (by rw [h])
            have hstep : close_hold s u n u = (sec + max 0 (n - t0), none) := by
              simp [close_hold, hq, ht0]
            rw [close_fold_of_none t _ n u (by rw [hstep])]
            rw [hstep]
      · have hut : u ∈ t := by
          rcases List.mem_cons.mp hu with h | h
          · exact absurd h hua
          · exact h
        exact ih _ hut (by rw [close_hold_other hua]; exact hz)

theorem open_fold_not_mem (sel : List Nat) (s : Stats) (n : Int) (g : Nat → Bool) (u : Nat)
    (hu : u ∉ sel) :
    sel.foldl (fun s uid => if g uid then open_hold s uid n else s) s u = s u := by
  induction sel generalizing s with
  | nil => rfl
  | cons a t ih =>
      have h1 : u ≠ a := fun h => hu (h ▸ List.mem_cons_self a t)
      have h2 : u ∉ t := fun h => hu (List.mem_cons_of_mem a h)
      simp only [List.foldl_cons]
      rw [ih _ h2]
      by_cases hg : g a
      · simp [hg, open_hold, h1]
      · simp [hg]

theorem open_fold_mem_all (sel : List Nat) (s : Stats) (n : Int) (g : Nat → Bool) (u : Nat)
    (hg : ∀ v, g v = true) (hu : u ∈ sel) :
    (sel.foldl (fun s uid => if g uid then open_hold s uid n else s) s u).2 = some n := by
  induction sel generalizing s with
  | nil => cases hu
  | cons a t ih =>
      simp only [List.foldl_cons]
      by_cases hut : u ∈ t
      · exact ih _ hut
      · have hua : u = a := by
          rcases List.mem_cons.mp hu with h | h
          · exact h
          · exact absurd h hut
        subst hua
        rw [open_fold_not_mem t _ n g u hut]
        simp [hg u, open_hold]

end StatsLemmas

section SelectionLemmas

open RoleCycler

theorem effY30_toNat (y : Nat) (hy : 1 ≤ y) : (Bot30.effective_y (y : Int)).toNat = y := by
  unfold Bot30.effective_y
  rw [if_neg (by exact_mod_cast Nat.not_lt.mpr hy : ¬ ((y : Int) < 1))]
  exact Int.toNat_natCast y

theorem effY31_toNat (y : Nat) (hy : 1 ≤ y) : (Bot31.effective_y (y : Int)).toNat = y := by
  unfold Bot31.effective_y
  rw [max_eq_right (by exact_mod_cast hy : (1 : Int) ≤ (y : Int))]
  exact Int.toNat_natCast y

theorem length_filter_partition {α : Type} (l : List α) (p : α → Bool) :
    (l.filter p).length + (l.filter (fun a => ! p a)).length = l.length := by
  induction l with
  | nil => rfl
  | cons a t ih =>
      by_cases h : p a
      · simp [List.filter_cons, h]
        omega
      · have h' : p a = false := by simpa using h
        simp [List.filter_cons, h']
        omega

theorem perform_run_selection_undersupply (y : Nat) (hy : 1 ≤ y)
    (membersA fresh newc : List Nat)
    (hf : fresh.Perm membersA) (hn : newc.Perm membersA)
    (hlen : membersA.length < y) :
    Bot31.perform_run_selection (y : Int) membersA [] fresh newc
      = ⟨fresh, [], true⟩ := by
  have hpl : fresh.length = membersA.length := hf.length_eq
  have hfilter : newc.filter (fun uid => decide (uid ∉ fresh)) = [] := by
    rw [List.filter_eq_nil_iff]
    intro x hx
    have hxf : x ∈ fresh := hf.mem_iff.mpr (hn.mem_iff.mp hx)
    simp [hxf]
  have htk : min y fresh.length = fresh.length := by omega
  have hneed : 0 < y - fresh.length := by omega
  unfold Bot31.perform_run_selection
  rw [effY31_toNat y hy]
  simp only [List.filter_nil, eq_self_iff_true, ite_true, htk, List.take_length]
  rw [hfilter, if_pos hneed]
  rw [if_neg (by simp; omega : ¬ (y - fresh.length ≤ ([] : List Nat).length))]
  simp [hlen]

theorem perform_run_selection_fresh_full (y : Nat) (hy : 1 ≤ y)
    (membersA cyclePool fresh newc : List Nat)
    (hzq : cyclePool.filter (fun uid => decide (uid ∈ membersA)) = [])
    (hf : fresh.Perm membersA) (hyP : y ≤ membersA.length) :
    Bot31.perform_run_selection (y : Int) membersA cyclePool fresh newc
      = ⟨fresh.take y, fresh.drop y, decide (membersA.length < y)⟩ := by
  have hpl : fresh.length = membersA.length := hf.length_eq
  have htk : min y fresh.length = y := by omega
  unfold Bot31.perform_run_selection
  rw [effY31_toNat y hy]
  rw [hzq]
  simp only [eq_self_iff_true, ite_true, htk]
  rw [List.length_take, htk]
  rw [if_neg (by omega : ¬ (0 < y - y))]

theorem perform_run_selection_topup (y : Nat) (hy : 1 ≤ y)
    (membersA cyclePool fresh newc : List Nat)
    (hz : (cyclePool.filter (fun uid => decide (uid ∈ membersA))).length < y)
    (hzne : cyclePool.filter (fun uid => decide (uid ∈ membersA)) ≠ [])
    (hlen : y - (cyclePool.filter (fun uid => decide (uid ∈ membersA))).length
      ≤ (newc.filter (fun uid => decide
          (uid ∉ cyclePool.filter (fun uid => decide (uid ∈ membersA))))).length) :
    Bot31.perform_run_selection (y : Int) membersA cyclePool fresh newc
      = ⟨cyclePool.filter (fun uid => decide (uid ∈ membersA))
           ++ (newc.filter (fun uid => decide
                (uid ∉ cyclePool.filter (fun uid => decide (uid ∈ membersA))))).take
              (y - (cyclePool.filter (fun uid => decide (uid ∈ membersA))).length),
         (newc.filter (fun uid => decide
            (uid ∉ cyclePool.filter (fun uid => decide (uid ∈ membersA))))).drop
           (y - (cyclePool.filter (fun uid => decide (uid ∈ membersA))).length),
         decide (membersA.length < y)⟩ := by
  set z := cyclePool.filter (fun uid => decide (uid ∈ membersA)) with hzdef
  have htk : min y z.length = z.length := by omega
  unfold Bot31.perform_run_selection
  rw [effY31_toNat y hy]
  simp only [← hzdef, if_neg hzne, htk, List.take_length]
  rw [if_pos (by omega : 0 < y - z.length)]
  rw [if_pos hlen]

theorem newCycle_length (membersA cyclePool newc : List Nat) (hA : membersA.Nodup)
    (hcp : cyclePool.Nodup) (hn : newc.Perm membersA) :
    (newc.filter (fun uid => decide
        (uid ∉ cyclePool.filter (fun uid => decide (uid ∈ membersA))))).length
      = membersA.length - (cyclePool.filter (fun uid => decide (uid ∈ membersA))).length := by
  set z := cyclePool.filter (fun uid => decide (uid ∈ membersA)) with hzdef
  have hsub : ∀ u ∈ z, u ∈ membersA := by
    intro u hu
    have := List.of_mem_filter hu
    simpa using this
  have hznd : z.Nodup := hcp.filter _
  have hnnd : newc.Nodup := hn.nodup_iff.mpr hA
  have hperm : (newc.filter (fun uid => decide (uid ∈ z))).Perm z := by
    apply List.perm_of_nodup_nodup_toFinset_eq (hnnd.filter _) hznd
    ext x
    simp only [List.mem_toFinset, List.mem_filter, decide_eq_true_eq]
    constructor
    · exact fun h => h.2
    · exact fun hx => ⟨hn.mem_iff.mpr (hsub x hx), hx⟩
  have hpred : (fun uid : Nat => decide (uid ∉ z)) = (fun uid : Nat => ! decide (uid ∈ z)) := by
    funext u
    simp [decide_not]
  rw [hpred]
  have hpart := length_filter_partition newc (fun uid : Nat => decide (uid ∈ z))
  have h1 : (newc.filter (fun uid : Nat => decide (uid ∈ z))).length = z.length :=
    hperm.length_eq
  have h2 : newc.length = membersA.length := hn.length_eq
  omega

end SelectionLemmas

section FairnessLemmas

open RoleCycler

theorem take_add_helper {α : Type} (l : List α) (m n : Nat) :
    l.take m ++ (l.drop m).take n = l.take (m + n) := by
  rw [List.take_drop]
  have h1 : l.take m = (l.take (m + n)).take m := by
    rw [List.take_take]
    congr 1
    omega
  rw [h1]
  exact List.take_append_drop m _

theorem selected_members_eq_self (pool sel : List Nat) (h : ∀ u ∈ sel, u ∈ pool) :
    Bot30.selected_members pool sel = sel :=
  List.filter_eq_self.mpr (fun a ha => by simpa using h a ha)

theorem pick_step_full (y : Nat) (hy : 1 ≤ y) (pool p1 p2 q0 : List Nat) (i0 : Nat)
    (R : List Nat) (hR : q0.drop i0 = R)
    (hfilt : R.filter (fun uid => decide (uid ∈ pool)) = R)
    (hne : R ≠ []) (hlen : y ≤ R.length) :
    Bot30.pick_next_batch (y : Int) pool p1 p2 q0 i0 = ⟨R.take y, R, y⟩ := by
  unfold Bot30.pick_next_batch
  rw [effY30_toNat y hy, hR, hfilt]
  simp only [if_neg hne, Nat.sub_zero, List.drop_zero, Nat.zero_add]
  rw [if_pos hlen]

theorem pick_step_fresh (y : Nat) (hy : 1 ≤ y) (pool p1 p2 q0 : List Nat) (i0 : Nat)
    (hq : (q0.drop i0).filter (fun uid => decide (uid ∈ pool)) = [])
    (hlen : y ≤ p1.length) :
    Bot30.pick_next_batch (y : Int) pool p1 p2 q0 i0 = ⟨p1.take y, p1, y⟩ := by
  unfold Bot30.pick_next_batch
  rw [effY30_toNat y hy, hq]
  simp only [eq_self_iff_true, ite_true, Nat.sub_zero, List.drop_zero, Nat.zero_add]
  rw [if_pos hlen]

theorem pick_step_topup (y : Nat) (hy : 1 ≤ y) (pool p1 p2 q0 : List Nat) (i0 : Nat)
    (R : List Nat) (hR : q0.drop i0 = R)
    (hfilt : R.filter (fun uid => decide (uid ∈ pool)) = R)
    (hne : R ≠ []) (hlen : R.length < y) :
    Bot30.pick_next_batch (y : Int) pool p1 p2 q0 i0
      = ⟨R ++ p2.take (y - R.length), p2.drop (y - R.length), 0⟩ := by
  unfold Bot30.pick_next_batch
  rw [effY30_toNat y hy, hR, hfilt]
  simp only [if_neg hne, Nat.sub_zero, List.drop_zero, Nat.zero_add]
  rw [if_neg (by omega : ¬ (y ≤ R.length))]

theorem run_batches_append (py : Int) (pool : List Nat)
    (ps1 ps2 : List (List Nat × List Nat)) (q : List Nat) (i : Nat) :
    Bot30.run_batches py pool (ps1 ++ ps2) q i
      = ((Bot30.run_batches py pool ps1 q i).1
           ++ (Bot30.run_batches py pool ps2 (Bot30.run_batches py pool ps1 q i).2.1
                (Bot30.run_batches py pool ps1 q i).2.2).1,
         (Bot30.run_batches py pool ps2 (Bot30.run_batches py pool ps1 q i).2.1
           (Bot30.run_batches py pool ps1 q i).2.2).2) := by
  induction ps1 generalizing q i with
  | nil => simp [Bot30.run_batches]
  | cons p rest ih =>
      simp only [List.cons_append, Bot30.run_batches, List.append_eq]
      rw [ih]

theorem run_batches_full (y : Nat) (hy : 1 ≤ y) (pool : List Nat)
    (ps : List (List Nat × List Nat)) (q0 : List Nat) (i0 : Nat) (R : List Nat)
    (hR : q0.drop i0 = R) (hsub : ∀ u ∈ R, u ∈ pool)
    (hlen : ps.length * y ≤ R.length) :
    (Bot30.run_batches (y : Int) pool ps q0 i0).1.flatten = R.take (ps.length * y)
    ∧ (Bot30.run_batches (y : Int) pool ps q0 i0).2.1.drop
        (Bot30.run_batches (y : Int) pool ps q0 i0).2.2 = R.drop (ps.length * y) := by
  induction ps generalizing q0 i0 R with
  | nil =>
      refine ⟨by simp [Bot30.run_batches], ?_⟩
      simp only [Bot30.run_batches, List.length_nil, Nat.zero_mul, List.drop_zero]
      exact hR
  | cons p rest ih =>
      have hfilt : R.filter (fun uid => decide (uid ∈ pool)) = R :=
        List.filter_eq_self.mpr (fun a ha => by simpa using hsub a ha)
      have hRy : y ≤ R.length := by
        have := hlen
        simp only [List.length_cons] at this
        nlinarith [Nat.succ_mul rest.length y]
      have hne : R ≠ [] := by
        intro h
        rw [h] at hRy
        simp at hRy
        omega
      have hstep := pick_step_full y hy pool p.1 p.2 q0 i0 R hR hfilt hne hRy
      have hsub' : ∀ u ∈ R.drop y, u ∈ pool := fun u hu => hsub u (List.mem_of_mem_drop hu)
      have hlen' : rest.length * y ≤ (R.drop y).length := by
        rw [List.length_drop]
        have hsm : (rest.length + 1) * y = rest.length * y + y := by ring
        simp only [List.length_cons] at hlen
        omega
      have hdrop : (R : List Nat).drop y = R.drop y := rfl
      obtain ⟨ihj, ihs⟩ := ih R y (R.drop y) hdrop hsub' hlen'
      constructor
      · show (Bot30.run_batches (y : Int) pool (p :: rest) q0 i0).1.flatten = _
        simp only [Bot30.run_batches, hstep]
        rw [List.flatten_cons]
        rw [selected_members_eq_self pool (R.take y)
          (fun u hu => hsub u (List.mem_of_mem_take hu))]
        rw [ihj, take_add_helper]
        congr 1
        simp only [List.length_cons]
        ring
      · simp only [Bot30.run_batches, hstep]
        rw [ihs, List.drop_drop]
        congr 1
        simp only [List.length_cons]
        ring

end FairnessLemmas

section Claims

open RoleCycler

/-- Claim C1.  Fairness over a cycle, for the remove-then-pick rotation
of bot3.0.py / bot2.0.py starting at a cycle boundary (the initial
persisted state: empty queue, index 0): for a stable eligibility pool of
`P` distinct members and pick count `y ≤ P`, over `ceil(P / y)`
consecutive runs — each run's injected shuffles being arbitrary
permutations of the pool — the first `P` recorded current-holder entries
(bot3.0.py line 438; the recorded holders equal the picked members of
the pool, whatever the grant outcomes) are a permutation of the pool:
every member appears in the current-holders sets exactly once before any
member appears a second time, and any repeat can only occur after those
first `P` entries. -/
theorem C1_fairness_over_cycle (y : Nat) (pool : List Nat)
    (ps : List (List Nat × List Nat))
    (_hnd : pool.Nodup) (hy : 1 ≤ y) (hyP : y ≤ pool.length)
    (hps : ∀ p ∈ ps, p.1.Perm pool ∧ p.2.Perm pool)
    (hk : ps.length = (pool.length + y - 1) / y) :
    ((Bot30.run_batches (y : Int) pool ps [] 0).1.flatten.take pool.length).Perm pool := by
  set P := pool.length with hP
  set q := P / y with hq
  set r := P % y with hr
  have hqr : y * q + r = P := Nat.div_add_mod P y
  have hrlt : r < y := Nat.mod_lt _ (by omega)
  have hq1 : 1 ≤ q := (Nat.one_le_div_iff (by omega)).mpr hyP
  have hkval : ps.length = if r = 0 then q else q + 1 := by
    rw [hk]
    by_cases hr0 : r = 0
    · rw [if_pos hr0]
      have h1 : P + y - 1 = y * q + (y - 1) := by omega
      rw [h1, Nat.mul_add_div (by omega), Nat.div_eq_of_lt (by omega)]
      omega
    · rw [if_neg hr0]
      have hm : y * (q + 1) = y * q + y := by ring
      have h1 : P + y - 1 = y * (q + 1) + (r - 1) := by omega
      rw [h1, Nat.mul_add_div (by omega), Nat.div_eq_of_lt (by omega)]
  have hlen1 : 1 ≤ ps.length := by
    rw [hkval]
    split <;> omega
  obtain ⟨p0, rest, rfl⟩ : ∃ p0 rest, ps = p0 :: rest := by
    cases ps with
    | nil => simp at hlen1
    | cons a t => exact ⟨a, t, rfl⟩
  have hps0 : p0.1.Perm pool := (hps p0 (List.mem_cons_self p0 rest)).1
  have hσlen : p0.1.length = P := hps0.length_eq
  have hstep1 := pick_step_fresh y hy pool p0.1 p0.2 [] 0 rfl (by omega)
  have hcons : (Bot30.run_batches (y : Int) pool (p0 :: rest) [] 0).1
      = Bot30.selected_members pool (p0.1.take y)
        :: (Bot30.run_batches (y : Int) pool rest p0.1 y).1 := by
    simp only [Bot30.run_batches, hstep1]
  rw [hcons, List.flatten_cons]
  rw [selected_members_eq_self pool (p0.1.take y)
    (fun u hu => hps0.subset (List.mem_of_mem_take hu))]
  have hRsub : ∀ u ∈ p0.1.drop y, u ∈ pool :=
    fun u hu => hps0.subset (List.mem_of_mem_drop hu)
  by_cases hr0 : r = 0
  · -- y divides P: all ceil(P/y) = q runs are full blocks of the first shuffle
    have hrlen : rest.length = q - 1 := by
      rw [if_pos hr0] at hkval
      simp only [List.length_cons] at hkval
      omega
    obtain ⟨q', hq'⟩ : ∃ q', q = q' + 1 := ⟨q - 1, by omega⟩
    have hrq : rest.length = q' := by omega
    have hc : q' * y = y * q' := by ring
    have hm : y * (q' + 1) = y * q' + y := by ring
    have hqr' : y * (q' + 1) + r = P := by rw [← hq']; exact hqr
    have hrest := run_batches_full y hy pool rest p0.1 y (p0.1.drop y) rfl hRsub
      (by rw [List.length_drop, hrq]; omega)
    rw [hrest.1, take_add_helper]
    have hidx : y + rest.length * y = P := by
      rw [hrq]
      omega
    rw [hidx]
    rw [List.take_take, min_self]
    rw [List.take_of_length_le (by omega : p0.1.length ≤ P)]
    exact hps0
  · -- y does not divide P: q full runs then one top-up run
    have hrlen : rest.length = q := by
      rw [if_neg hr0] at hkval
      simp only [List.length_cons] at hkval
      omega
    have hrestne : rest ≠ [] := by
      intro h
      rw [h] at hrlen
      simp at hrlen
      omega
    have hsplit := List.dropLast_append_getLast hrestne
    set mid := rest.dropLast with hmid
    set plast := rest.getLast hrestne with hplast
    have hmidlen : mid.length = q - 1 := by
      rw [hmid, List.length_dropLast, hrlen]
    obtain ⟨q2, hq2⟩ : ∃ q2, q = q2 + 1 := ⟨q - 1, by omega⟩
    have hmq : mid.length = q2 := by omega
    have hc : q2 * y = y * q2 := by ring
    have hm2 : y * (q2 + 1) = y * q2 + y := by ring
    have hqr2 : y * (q2 + 1) + r = P := by rw [← hq2]; exact hqr
    rw [← hsplit, run_batches_append]
    set t1 := Bot30.run_batches (y : Int) pool mid p0.1 y with ht1
    have hfull := run_batches_full y hy pool mid p0.1 y (p0.1.drop y) rfl hRsub
      (by rw [List.length_drop, hmq]; omega)
    have hR2 : t1.2.1.drop t1.2.2 = p0.1.drop (y + mid.length * y) := by
      rw [ht1, hfull.2, List.drop_drop]
    have hR2len : (p0.1.drop (y + mid.length * y)).length = r := by
      rw [List.length_drop, hmq]
      omega
    have hR2sub : ∀ u ∈ p0.1.drop (y + mid.length * y), u ∈ pool :=
      fun u hu => hps0.subset (List.mem_of_mem_drop hu)
    have hR2filt : (p0.1.drop (y + mid.length * y)).filter
        (fun uid => decide (uid ∈ pool)) = p0.1.drop (y + mid.length * y) :=
      List.filter_eq_self.mpr (fun a ha => by simpa using hR2sub a ha)
    have hR2ne : p0.1.drop (y + mid.length * y) ≠ [] := by
      intro h
      rw [h] at hR2len
      simp at hR2len
      omega
    have hplmem : plast ∈ p0 :: rest :=
      List.mem_cons_of_mem p0 (List.getLast_mem hrestne)
    have hpl2 : plast.2.Perm pool := (hps plast hplmem).2
    have hstep2 := pick_step_topup y hy pool plast.1 plast.2 t1.2.1 t1.2.2
      (p0.1.drop (y + mid.length * y)) hR2 hR2filt hR2ne (by omega)
    have hone : (Bot30.run_batches (y : Int) pool [plast] t1.2.1 t1.2.2).1
        = [Bot30.selected_members pool
            (p0.1.drop (y + mid.length * y)
              ++ plast.2.take (y - (p0.1.drop (y + mid.length * y)).length))] := by
      simp only [Bot30.run_batches, hstep2]
    rw [hone]
    rw [selected_members_eq_self pool _ (by
      intro u hu
      rcases List.mem_append.mp hu with h | h
      · exact hR2sub u h
      · exact hpl2.subset (List.mem_of_mem_take h))]
    rw [List.flatten_append, ht1, hfull.1]
    simp only [List.flatten_cons, List.flatten_nil, List.append_nil]
    rw [← List.append_assoc, take_add_helper]
    rw [← List.append_assoc, List.take_append_drop]
    rw [List.take_left' hσlen]
    exact hps0

/-- Witness for C1 at a concrete input: pool `[10, 20, 30]`, `y = 2`,
`ceil(3/2) = 2` runs with concrete injected shuffles. -/
theorem C1_witness :
    ((Bot30.run_batches ((2 : Nat) : Int) [10, 20, 30]
        [([20, 10, 30], [10, 20, 30]), ([30, 20, 10], [30, 10, 20])] [] 0).1.flatten.take
      (List.length [10, 20, 30])).Perm [10, 20, 30] :=
  C1_fairness_over_cycle 2 [10, 20, 30]
    [([20, 10, 30], [10, 20, 30]), ([30, 20, 10], [30, 10, 20])]
    (by decide) (by decide) (by decide) (by decide) (by decide)

/-- Claim C5.  The claim states that for every schedule kind and any
instant `now` the computed next-run instant is strictly after `now`.
The code is wrong: in `next_run_from_now` (bot3.0.py lines 303-321 =
bot2.0.py lines 323-347) the monthly branch's month rollover
`cand.replace(year=y, month=m2)` is not guarded by the ValueError
handler, so with `day_of_month = 31`, schedule time 09:00 and
`now` = 2025-03-31 10:00 the source raises an uncaught ValueError
(March 31 carried into April) instead of producing the strictly-future
instant 2025-04-30 09:00; the model returns `Except.error ()`. -/
theorem C5_next_run_monthly_rollover_raises :
    Bot30.next_run_from_now ⟨true, "monthly", 9, 0, 0, 31, 3⟩ ⟨2025, 3, 31, 10, 0, 0⟩
      = Except.error () := by
  rfl

/-- Claim C6.  The claim states that a `day_of_month` exceeding the
target month's length is clamped to that month's last day (e.g.
`day_of_month = 31` with a 30-day target month yields the 30th).  The
code is wrong whenever the target month is reached by rolling over from
a longer month: with `day_of_month = 31`, schedule time 09:00 and
`now` = 2025-05-31 10:00 the target month is June (30 days) and the
spec's answer is 2025-06-30 09:00, but `cand.replace(year=y, month=m2)`
(bot3.0.py line 315 = bot2.0.py line 340) raises an uncaught ValueError
for June 31 before the clamping loop can run; the model returns
`Except.error ()`.  (Clamping does work when the target month is the
current month: with the same schedule and `now` = 2025-04-01 the model
returns April 30 09:00.) -/
theorem C6_monthly_clamp_rollover_raises :
    Bot30.next_run_from_now ⟨true, "monthly", 9, 0, 0, 31, 3⟩ ⟨2025, 5, 31, 10, 0, 0⟩
      = Except.error () := by
  rfl

/-- Claim C8 (amended).  For the schedule calculator of bot3.0.py /
bot2.0.py (`next_run_from_now`), a disabled schedule and an unrecognised
schedule kind both yield `None` (no fallback, no exception).  The claim
as stated is false for bot3.1.py's `compute_next_run`, which has no
enabled flag and silently falls back to a daily schedule on an
unrecognised preset — see `C8_counterexample_bot31_fallback_daily`. -/
theorem C8_next_run_none_when_disabled_or_unknown (s : Bot30.Sched) (now : DT)
    (h : s.enabled = false ∨
         (s.type ≠ "daily" ∧ s.type ≠ "weekly" ∧ s.type ≠ "monthly" ∧ s.type ≠ "every_n_days")) :
    Bot30.next_run_from_now s now = Except.ok none := by
  rcases h with h | ⟨h1, h2, h3, h4⟩
  · simp [Bot30.next_run_from_now, h]
  · by_cases he : s.enabled
    · simp [Bot30.next_run_from_now, he, h1, h2, h3, h4]
    · simp [Bot30.next_run_from_now, he]

/-- Witness for C8: an enabled schedule with the unrecognised kind
"yearly" yields `None` in the bot3.0/bot2.0 calculator. -/
theorem C8_witness :
    Bot30.next_run_from_now ⟨true, "yearly", 9, 0, 0, 1, 3⟩ ⟨2025, 3, 31, 10, 0, 0⟩
      = Except.ok none :=
  C8_next_run_none_when_disabled_or_unknown ⟨true, "yearly", 9, 0, 0, 1, 3⟩
    ⟨2025, 3, 31, 10, 0, 0⟩ (Or.inr (by decide))

/-- Counterexample for C8: bot3.1.py's `compute_next_run` (lines
305-339) does not yield `none` for an unrecognised preset — it silently
falls back to the daily schedule (its return type has no `None` at all):
with preset "yearly", time 09:00 and `now` = 2025-06-15 10:00 it returns
2025-06-16 09:00, exactly the daily behaviour, contradicting "an
unrecognized kind yields none rather than silently falling back to some
other schedule". -/
theorem C8_counterexample_bot31_fallback_daily :
    Bot31.compute_next_run ⟨"preset", "yearly", 7, 9, 0⟩ ⟨2025, 6, 15, 10, 0, 0⟩
      = ⟨2025, 6, 16, 9, 0, 0⟩ := by
  rfl

/-- Claim C10.  In every version the configured picks count is coerced
to at least 1 before selection: bot3.0.py lines 383-384 and bot2.0.py
lines 424-426 (`if y < 1: y = 1`, modelled by `Bot30.effective_y`, used
by `Bot30.pick_next_batch`) and bot3.1.py line 436 (`max(1, ...)`,
modelled by `Bot31.effective_y`, used by `Bot31.perform_run_selection`);
so a run never requests an empty batch, for any configured value
including zero and negative values. -/
theorem C10_effective_batch_size_at_least_one (p : Int) :
    1 ≤ Bot30.effective_y p ∧ 1 ≤ (Bot30.effective_y p).toNat ∧
    1 ≤ Bot31.effective_y p ∧ 1 ≤ (Bot31.effective_y p).toNat := by
  unfold Bot30.effective_y Bot31.effective_y
  by_cases h : p < 1
  · simp [h]
  · simp [h]
    omega

/-- Counterexample for C2: in bot3.0.py / bot2.0.py the fresh top-up
permutation is drawn over the whole pool WITHOUT excluding the carried
remainder `z` (bot3.0.py line 412: `shuffle_cycle_queue(members_a)`), so
the picked batch can contain a duplicate id even though the pool has at
least `want` distinct members.  Concretely: pool `[1,2,3,4,5]`, carried
remainder `z = [1,2]`, `want = 4`, top-up permutation `[1,3,2,4,5]`
gives the batch `[1,2,1,3]` — member 1 twice. -/
theorem C2_counterexample_bot30_duplicate_in_batch :
    ¬ (Bot30.pick_next_batch 4 [1, 2, 3, 4, 5] [1, 2, 3, 4, 5] [1, 3, 2, 4, 5]
        [1, 2] 0).selected.Nodup := by
  decide

/-- Counterexample for C7: with a pool of 2 distinct members and
`want = 5`, bot3.0.py / bot2.0.py produce a selected list of FOUR
entries (`[2,1,1,2]` for the injected shuffles below) — both members are
repeated within the same batch, so "picked has at most 2 members" fails
for the batch actually assigned; these versions also send no
under-supply advisory (bot3.0.py's run report has no insufficiency
message). -/
theorem C7_counterexample_bot30_batch_exceeds_pool :
    ¬ ((Bot30.pick_next_batch 5 [1, 2] [2, 1] [1, 2] [] 0).selected.length ≤ 2) := by
  decide

/-- Counterexample for C3: because the source tests the stored open
timestamp by Python truthiness (`if stats.get("hold_started_ts"):`,
bot3.0.py line 357), a member whose interval was opened at instant 0 is
treated as already closed: opening member 7 at `t0 = 0` and closing at
`now = 100` leaves the record at `(0, some 0)` instead of the claimed
`(accumulated_seconds = 100, holding_since = none)`. -/
theorem C3_counterexample_close_at_epoch_zero :
    (close_hold (open_hold statsEmpty 7 0) 7 100) 7 ≠ (100, none) := by
  decide

/-- Claim C3 (amended).  Duration accounting as implemented by
bot3.0.py / bot2.0.py, with the single amendment forced by
`C3_counterexample_close_at_epoch_zero`: the close step finalises the
interval whenever `holding_since` is non-null AND non-zero (Python
truthiness), and is a no-op when the interval is already closed or the
record absent.  With any non-zero `t0` (so that the stored timestamps
are truthy) the claimed round trip holds: open at `t0`, close at
`t0+100` gives `accumulated_seconds = 100` with the interval cleared,
and after reopening at `t0+200` a `total` query at `t0+250` returns
`150`. -/
theorem C3_duration_accounting_amended (s s' : Stats) (uid uid' m : Nat)
    (nowC now' t t0 : Int)
    (hs : (s uid).2 = some t) (ht : t ≠ 0)
    (hs' : (s' uid').2 = none)
    (h0 : t0 ≠ 0) (h0' : t0 + 200 ≠ 0) :
    close_hold s uid nowC uid = ((s uid).1 + max 0 (nowC - t), none)
    ∧ close_hold s' uid' now' = s'
    ∧ (close_hold (open_hold statsEmpty m t0) m (t0 + 100) m).1 = 100
    ∧ (close_hold (open_hold statsEmpty m t0) m (t0 + 100) m).2 = none
    ∧ total_hold
        (open_hold (close_hold (open_hold statsEmpty m t0) m (t0 + 100)) m (t0 + 200))
        m (t0 + 250) = 150 := by
  refine ⟨?_, ?_, ?_, ?_, ?_⟩
  · rcases hq : s uid with ⟨sec, hold⟩
    rw [hq] at hs
    simp at hs
    subst hs
    simp [close_hold, hq, ht]
  · funext u
    by_cases hu : u = uid'
    · subst hu
      exact close_hold_of_none hs'
    · exact close_hold_other hu
  · simp [close_hold, open_hold, statsEmpty, h0]
  · simp [close_hold, open_hold, statsEmpty, h0]
  · simp [total_hold, close_hold, open_hold, statsEmpty, h0, h0']

/-- Counterexample for C4: in bot3.0.py / bot2.0.py the recorded
`current_holders` is set to ALL selected members regardless of the grant
outcome (bot3.0.py line 438), so a member whose grant call failed is NOT
excluded: running a rotation over pool `[1,2]` with picks 2 where the
grant succeeds for member 1 and fails for member 2 leaves member 2 in
`current_holders` with no open interval — the recorded holder set does
not equal the set of members with a non-null `holding_since`. -/
theorem C4_counterexample_failed_grant_still_holder :
    2 ∈ (Bot30.run_rotation 2 [1, 2] [1, 2] [2, 1] (fun u => u == 1) 50 60
          ⟨[], statsEmpty, [1, 2], 0⟩).currentHolders ∧
    ((Bot30.run_rotation 2 [1, 2] [1, 2] [2, 1] (fun u => u == 1) 50 60
          ⟨[], statsEmpty, [1, 2], 0⟩).stats 2).2 = none := by
  constructor
  · decide
  · rfl

/-- Witness for C3 at a concrete input: stats with an open non-zero
interval for member 1, a closed record for member 2, and round-trip
member 7 with `t0 = 1000`. -/
theorem C3_witness :
    close_hold (fun _ => ((5 : Int), some (3 : Int))) 1 40 1
        = (((fun _ => ((5 : Int), some (3 : Int))) 1).1 + max 0 (40 - 3), none)
    ∧ close_hold (fun _ => ((2 : Int), (none : Option Int))) 2 41
        = (fun _ => ((2 : Int), (none : Option Int)))
    ∧ (close_hold (open_hold statsEmpty 7 1000) 7 (1000 + 100) 7).1 = 100
    ∧ (close_hold (open_hold statsEmpty 7 1000) 7 (1000 + 100) 7).2 = none
    ∧ total_hold
        (open_hold (close_hold (open_hold statsEmpty 7 1000) 7 (1000 + 100)) 7 (1000 + 200))
        7 (1000 + 250) = 150 :=
  C3_duration_accounting_amended (fun _ => ((5 : Int), some (3 : Int)))
    (fun _ => ((2 : Int), (none : Option Int))) 1 2 7 40 41 3 1000
    rfl (by decide) rfl (by decide) (by decide)

/-- Claim C4 (amended).  After a rotation in which every grant call
succeeds, the recorded `current_holders` list coincides (as a set) with
the members whose stats record has a non-null `hold_started_ts` —
provided the pre-state had no stray open interval outside the recorded
holders and no open interval stored at the falsy timestamp 0.  The
unamended claim (a member whose grant failed is excluded from
`current_holders`) is refuted by
`C4_counterexample_failed_grant_still_holder`: bot3.0.py line 438 stores
ALL selected members as holders, so the mirror property only holds when
every grant succeeded. -/
theorem C4_holders_mirror_open_intervals_amended (picksY : Int)
    (pool p1 p2 : List Nat) (g : Nat → Bool) (nowR nowP : Int) (st : Bot30.RunState)
    (hpre : ∀ u, u ∉ st.currentHolders → (st.stats u).2 = none)
    (hz : ∀ u, (st.stats u).2 ≠ some 0)
    (hg : ∀ u, g u = true) (u : Nat) :
    u ∈ (Bot30.run_rotation picksY pool p1 p2 g nowR nowP st).currentHolders
      ↔ ((Bot30.run_rotation picksY pool p1 p2 g nowR nowP st).stats u).2 ≠ none := by
  have hclosed : ∀ v,
      ((Bot30.remove_role_b_from_current_holders nowR st).stats v).2 = none := by
    intro v
    show ((st.currentHolders.foldl (fun s uid => close_hold s uid nowR) st.stats) v).2 = none
    by_cases hv : v ∈ st.currentHolders
    · exact close_fold_closes _ _ _ _ hv (hz v)
    · rw [close_fold_not_mem _ _ _ _ hv]
      exact hpre v hv
  set selM := Bot30.selected_members pool
    (Bot30.pick_next_batch picksY pool p1 p2
      (Bot30.remove_role_b_from_current_holders nowR st).queue
      (Bot30.remove_role_b_from_current_holders nowR st).index).selected with hselM
  have hH : (Bot30.run_rotation picksY pool p1 p2 g nowR nowP st).currentHolders = selM := rfl
  have hS : (Bot30.run_rotation picksY pool p1 p2 g nowR nowP st).stats
      = selM.foldl (fun s uid => if g uid then open_hold s uid nowP else s)
          (Bot30.remove_role_b_from_current_holders nowR st).stats := rfl
  rw [hH, hS]
  by_cases hu : u ∈ selM
  · simp only [hu, true_iff]
    rw [open_fold_mem_all _ _ _ _ _ hg hu]
    simp
  · simp only [hu, false_iff, not_not]
    rw [open_fold_not_mem _ _ _ _ _ hu]
    exact hclosed u

/-- Witness for C4 at a concrete input: pool `[1,2]`, picks 2, all
grants succeeding, initial state with queue `[1,2]` and empty stats. -/
theorem C4_witness :
    1 ∈ (Bot30.run_rotation 2 [1, 2] [1, 2] [2, 1] (fun _ => true) 50 60
          ⟨[], statsEmpty, [1, 2], 0⟩).currentHolders
      ↔ ((Bot30.run_rotation 2 [1, 2] [1, 2] [2, 1] (fun _ => true) 50 60
          ⟨[], statsEmpty, [1, 2], 0⟩).stats 1).2 ≠ none :=
  C4_holders_mirror_open_intervals_amended 2 [1, 2] [1, 2] [2, 1] (fun _ => true) 50 60
    ⟨[], statsEmpty, [1, 2], 0⟩ (fun _ _ => rfl)
    (fun _ h => by simp [statsEmpty] at h) (fun _ => rfl) 1

/-- Claim C7 (amended).  In bot3.1.py's `perform_run`, with a pool of 2
distinct members and `want = 5`, the picked batch has at most 2 members
(no member is repeated within the batch), and the under-supply advisory
of line 505 (`len(members_with_a) < y` → `run_insufficient` message) is
flagged; the selection logic is total (no exception).  The unamended
claim fails for bot3.0.py / bot2.0.py, whose batch at the same inputs
has FOUR entries (each member twice) and which produce no advisory —
see `C7_counterexample_bot30_batch_exceeds_pool`. -/
theorem C7_undersupply_bot31_amended (a b : Nat) (fresh newc : List Nat)
    (_hab : a ≠ b) (hf : fresh.Perm [a, b]) (hn : newc.Perm [a, b]) :
    (Bot31.perform_run_selection 5 [a, b] [] fresh newc).picks.length ≤ 2
    ∧ (Bot31.perform_run_selection 5 [a, b] [] fresh newc).insufficient = true := by
  have h5 : (5 : Int) = ((5 : Nat) : Int) := rfl
  rw [h5, perform_run_selection_undersupply 5 (by omega) [a, b] fresh newc hf hn (by simp)]
  refine ⟨?_, rfl⟩
  show fresh.length ≤ 2
  have : fresh.length = 2 := by rw [hf.length_eq]; rfl
  omega

/-- Claim C2 (amended).  Top-up correctness holds for bot3.1.py's
`perform_run` (lines 452-466), whose fresh cycle IS drawn excluding the
members already picked: whenever the carried remainder `z` (the persisted
cycle pool filtered to the current eligible pool) has fewer than `want`
members and the pool has at least `want` distinct members, the picked
batch has exactly `want` members, consists of all of `z` followed by
fresh-cycle members of the pool, and contains no duplicate member id.
The unamended claim is false for bot3.0.py / bot2.0.py, whose top-up
permutation is drawn over the WHOLE pool without excluding `z`
(bot3.0.py line 412), so the batch can repeat a member — see
`C2_counterexample_bot30_duplicate_in_batch`. -/
theorem C2_topup_bot31_amended (y : Nat) (membersA cyclePool fresh newc : List Nat)
    (hA : membersA.Nodup) (hcp : cyclePool.Nodup)
    (hf : fresh.Perm membersA) (hn : newc.Perm membersA)
    (hy : 1 ≤ y) (hyP : y ≤ membersA.length)
    (hz : (cyclePool.filter (fun uid => decide (uid ∈ membersA))).length < y) :
    ((Bot31.perform_run_selection (y : Int) membersA cyclePool fresh newc).picks.length = y)
    ∧ (Bot31.perform_run_selection (y : Int) membersA cyclePool fresh newc).picks.Nodup
    ∧ ∃ w, (Bot31.perform_run_selection (y : Int) membersA cyclePool fresh newc).picks
            = cyclePool.filter (fun uid => decide (uid ∈ membersA)) ++ w
        ∧ ∀ u ∈ w, u ∈ membersA := by
  set z := cyclePool.filter (fun uid => decide (uid ∈ membersA)) with hzdef
  have hfnd : fresh.Nodup := hf.nodup_iff.mpr hA
  have hnnd : newc.Nodup := hn.nodup_iff.mpr hA
  by_cases hzq : z = []
  · rw [hzdef] at hzq
    rw [perform_run_selection_fresh_full y hy membersA cyclePool fresh newc hzq hf hyP]
    have hpl : fresh.length = membersA.length := hf.length_eq
    refine ⟨?_, ?_, fresh.take y, ?_, ?_⟩
    · simp only [List.length_take]
      omega
    · exact (List.take_sublist y fresh).nodup hfnd
    · rw [hzdef, hzq]
      rfl
    · intro u hu
      exact hf.mem_iff.mp (List.mem_of_mem_take hu)
  · have hnclen := newCycle_length membersA cyclePool newc hA hcp hn
    rw [← hzdef] at hnclen
    have hlen : y - z.length
        ≤ (newc.filter (fun uid => decide (uid ∉ z))).length := by omega
    rw [hzdef] at hzq hlen
    rw [perform_run_selection_topup y hy membersA cyclePool fresh newc
      (hzdef ▸ hz) hzq hlen]
    rw [← hzdef] at hlen ⊢
    set nc := newc.filter (fun uid => decide (uid ∉ z)) with hncdef
    have hncsub : ∀ u ∈ nc, u ∈ newc := fun u hu => (List.mem_filter.mp hu).1
    have hzsub : ∀ u ∈ z, u ∈ membersA := by
      intro u hu
      have := List.of_mem_filter hu
      simpa using this
    refine ⟨?_, ?_, nc.take (y - z.length), rfl, ?_⟩
    · simp only [List.length_append, List.length_take]
      omega
    · apply List.Nodup.append (hcp.filter _)
      · exact ((List.take_sublist _ nc).trans (List.filter_sublist newc)).nodup hnnd
      · intro a haz hat
        have : a ∈ nc := List.mem_of_mem_take hat
        have := List.of_mem_filter this
        simp at this
        exact this haz
    · intro u hu
      exact hn.mem_iff.mp (hncsub u (List.mem_of_mem_take hu))

/-- Witness for C2 at a concrete input: pool `[1,2,3,4,5]`, carried
cycle pool `[1,2]`, `want = 4`, injected shuffles `[5,4,3,2,1]` and
`[1,3,2,4,5]`. -/
theorem C2_witness :
    ((Bot31.perform_run_selection ((4 : Nat) : Int) [1, 2, 3, 4, 5] [1, 2] [5, 4, 3, 2, 1]
        [1, 3, 2, 4, 5]).picks.length = 4)
    ∧ (Bot31.perform_run_selection ((4 : Nat) : Int) [1, 2, 3, 4, 5] [1, 2] [5, 4, 3, 2, 1]
        [1, 3, 2, 4, 5]).picks.Nodup
    ∧ ∃ w, (Bot31.perform_run_selection ((4 : Nat) : Int) [1, 2, 3, 4, 5] [1, 2]
            [5, 4, 3, 2, 1] [1, 3, 2, 4, 5]).picks
          = [1, 2].filter (fun uid => decide (uid ∈ [1, 2, 3, 4, 5])) ++ w
        ∧ ∀ u ∈ w, u ∈ [1, 2, 3, 4, 5] :=
  C2_topup_bot31_amended 4 [1, 2, 3, 4, 5] [1, 2] [5, 4, 3, 2, 1] [1, 3, 2, 4, 5]
    (by decide) (by decide) (by decide) (by decide) (by decide) (by decide) (by decide)

/-- Witness for C7 at a concrete input: pool `[1, 2]`, the two injected
shuffles `[2, 1]` and `[1, 2]`. -/
theorem C7_witness :
    (Bot31.perform_run_selection 5 [1, 2] [] [2, 1] [1, 2]).picks.length ≤ 2
    ∧ (Bot31.perform_run_selection 5 [1, 2] [] [2, 1] [1, 2]).insufficient = true :=
  C7_undersupply_bot31_amended 1 2 [2, 1] [1, 2] (by decide) (by decide) (by decide)

end Claims
